import Mathlib

/-!
Shallow embedding of the Hill-type muscle model in `H_muscle.py`.

The Python class `Hill_type_muscle` holds five real parameters and computes
activation, fiber length, normalized fiber length, active/passive
force-length curve values and active/passive/total muscle force.  The two
force-length curves are built by `scipy.interpolate.interp1d(x, y, kind =
'cubic')` from fixed breakpoint tables; that call constructs the C²
piecewise-cubic interpolant of the table with not-a-knot boundary
conditions, and raises a ValueError when evaluated outside
`[x.min(), x.max()]`.  We embed the curve construction exactly over `ℚ`
(the tables are rational): we assemble the standard second-derivative
("moment") linear system of the not-a-knot cubic spline, solve it by
Gaussian elimination over `ℚ`, and evaluate the resulting piecewise
cubics.  The theorems `active_smooth`, `passive_smooth`,
`active_notaknot`, `passive_notaknot` and the interpolation claim certify
that the computed pieces satisfy every defining condition of the
not-a-knot cubic spline, which pins the construction down uniquely.
Real-valued machine arithmetic is idealized as `ℝ`, and the out-of-range
ValueError is modelled by `Option`.

The library's rational field operations are `@[irreducible]`, so the
spline computation is written with equivalent kernel-reducible operations
(`qadd`, `qsub`, `qmul`, `qdiv`, `qneg`, built on `mkRat`); the lemmas
`qadd_eq`, `qsub_eq`, `qmul_eq`, `qdiv_eq`, `qneg_eq` prove once and for
all that they agree with the field operations of `ℚ`.
-/

set_option maxRecDepth 100000

namespace HillMuscle

/-- Kernel-reducible addition on `ℚ`, equal to `a + b` by `qadd_eq`. -/
def qadd (a b : ℚ) : ℚ := mkRat (a.num * b.den + b.num * a.den) (a.den * b.den)

/-- Kernel-reducible subtraction on `ℚ`, equal to `a - b` by `qsub_eq`. -/
def qsub (a b : ℚ) : ℚ := mkRat (a.num * b.den - b.num * a.den) (a.den * b.den)

/-- Kernel-reducible multiplication on `ℚ`, equal to `a * b` by `qmul_eq`. -/
def qmul (a b : ℚ) : ℚ := mkRat (a.num * b.num) (a.den * b.den)

/-- Kernel-reducible division on `ℚ`, equal to `a / b` by `qdiv_eq`. -/
def qdiv (a b : ℚ) : ℚ :=
  if 0 ≤ b.num then mkRat (a.num * b.den) (a.den * b.num.natAbs)
  else mkRat (-(a.num * b.den)) (a.den * b.num.natAbs)

/-- Kernel-reducible negation on `ℚ`, equal to `-a` by `qneg_eq`. -/
def qneg (a : ℚ) : ℚ := mkRat (-a.num) a.den

/-- Breakpoint abscissae of the active force-length table
(`get_active_force_length_function`, `x`); the decimal values
`-5, 0, 0.401, 0.402, 0.4035, 0.52725, 0.62875, 0.71875, 0.86125, 1.045,
1.2175, 1.43875, 1.61875, 1.62, 1.621, 2.2, 5` written with `mkRat`
(see `activeX_eq_decimals`). -/
def activeX : List ℚ :=
  [mkRat (-5) 1, mkRat 0 1, mkRat 401 1000, mkRat 402 1000, mkRat 4035 10000,
   mkRat 52725 100000, mkRat 62875 100000, mkRat 71875 100000, mkRat 86125 100000,
   mkRat 1045 1000, mkRat 12175 10000, mkRat 143875 100000, mkRat 161875 100000,
   mkRat 162 100, mkRat 1621 1000, mkRat 22 10, mkRat 5 1]

/-- Breakpoint ordinates of the active force-length table
(`get_active_force_length_function`, `y`); the decimal values
`0, 0, 0, 0, 0, 0.226667, 0.636667, 0.856667, 0.95, 0.993333, 0.77,
0.246667, 0, 0, 0, 0, 0` (see `activeY_eq_decimals`). -/
def activeY : List ℚ :=
  [mkRat 0 1, mkRat 0 1, mkRat 0 1, mkRat 0 1, mkRat 0 1, mkRat 226667 1000000,
   mkRat 636667 1000000, mkRat 856667 1000000, mkRat 95 100, mkRat 993333 1000000,
   mkRat 77 100, mkRat 246667 1000000, mkRat 0 1, mkRat 0 1, mkRat 0 1,
   mkRat 0 1, mkRat 0 1]

/-- Breakpoint abscissae of the passive force-length table
(`get_passive_force_length_function`, `x`); the decimal values
`-5, 0.998, 0.999, 1, 1.1, 1.2, 1.3, 1.4, 1.5, 1.6, 1.601, 1.602, 5`
(see `passiveX_eq_decimals`). -/
def passiveX : List ℚ :=
  [mkRat (-5) 1, mkRat 998 1000, mkRat 999 1000, mkRat 1 1, mkRat 11 10,
   mkRat 12 10, mkRat 13 10, mkRat 14 10, mkRat 15 10, mkRat 16 10,
   mkRat 1601 1000, mkRat 1602 1000, mkRat 5 1]

/-- Breakpoint ordinates of the passive force-length table
(`get_passive_force_length_function`, `y`); the decimal values
`0, 0, 0, 0, 0.035, 0.12, 0.26, 0.55, 1.17, 2, 2, 2, 2`
(see `passiveY_eq_decimals`). -/
def passiveY : List ℚ :=
  [mkRat 0 1, mkRat 0 1, mkRat 0 1, mkRat 0 1, mkRat 35 1000, mkRat 12 100,
   mkRat 26 100, mkRat 55 100, mkRat 117 100, mkRat 2 1, mkRat 2 1,
   mkRat 2 1, mkRat 2 1]

/-- Pick the first row whose leading entry is nonzero; return it together
with the remaining rows. -/
def pickPivot : List (List ℚ) → Option (List ℚ × List (List ℚ))
  | [] => none
  | r :: rs =>
    if r.headI = 0 then
      match pickPivot rs with
      | some (p, rest) => some (p, r :: rest)
      | none => none
    else some (r, rs)

/-- Subtract the multiple of the pivot row `p` that clears the leading
entry of `r`, and drop that leading column. -/
def elimStep (p r : List ℚ) : List ℚ :=
  match p, r with
  | p0 :: ps, r0 :: rs => List.zipWith (fun a b => qsub b (qmul (qdiv r0 p0) a)) ps rs
  | _, _ => []

/-- Forward elimination: reduce an augmented system to a list of pivot
rows (each one column shorter than the previous). -/
def triangulate : Nat → List (List ℚ) → List (List ℚ)
  | 0, _ => []
  | n + 1, rows =>
    match pickPivot rows with
    | none => []
    | some (p, rest) => p :: triangulate n (rest.map (elimStep p))

/-- Dot product of two rational lists. -/
def dotProd (a b : List ℚ) : ℚ := (List.zipWith qmul a b).foldr qadd 0

/-- Back substitution over the triangulated pivot rows. -/
def backSub : List (List ℚ) → List ℚ
  | [] => []
  | p :: rest =>
    let sol := backSub rest
    match p with
    | [] => []
    | c :: cs => qdiv (qsub (cs.getLastD 0) (dotProd cs.dropLast sol)) c :: sol

/-- Solve a linear system given as augmented rows. -/
def gaussSolve (rows : List (List ℚ)) : List ℚ := backSub (triangulate rows.length rows)

/-- Interval widths `h i = x (i+1) - x i` of a knot list. -/
def hsOf (xs : List ℚ) : List ℚ := List.zipWith (fun a b => qsub a b) xs.tail xs

/-- One augmented row of the moment system: `n+1` coefficients given by
`entry`, followed by the right-hand side. -/
def sysRow (n : Nat) (entry : Nat → ℚ) (rhs : ℚ) : List ℚ :=
  ((List.range (n + 1)).map entry) ++ [rhs]

/-- The moment (second-derivative) system of the not-a-knot cubic spline
through `(xs, ys)`: the `n-1` interior rows express continuity of the
first derivative across each interior knot, and the first and last rows
express continuity of the third derivative at the second and
second-to-last knots (the not-a-knot boundary conditions used by
`interp1d(kind = 'cubic')`). -/
def notAKnotSystem (xs ys : List ℚ) : List (List ℚ) :=
  let n := xs.length - 1
  let h := fun i => (hsOf xs).getD i 0
  let y := fun i => ys.getD i 0
  let row0 := sysRow n
    (fun j => if j = 0 then qneg (h 1) else if j = 1 then qadd (h 0) (h 1)
              else if j = 2 then qneg (h 0) else 0) 0
  let rowi := fun i => sysRow n
    (fun j => if j = i - 1 then h (i - 1)
              else if j = i then qmul 2 (qadd (h (i - 1)) (h i))
              else if j = i + 1 then h i else 0)
    (qmul 6 (qsub (qdiv (qsub (y (i + 1)) (y i)) (h i))
                  (qdiv (qsub (y i) (y (i - 1))) (h (i - 1)))))
  let rowN := sysRow n
    (fun j => if j = n - 2 then qneg (h (n - 1))
              else if j = n - 1 then qadd (h (n - 2)) (h (n - 1))
              else if j = n then qneg (h (n - 2)) else 0) 0
  row0 :: (((List.range (n - 1)).map (fun k => rowi (k + 1))) ++ [rowN])

/-- Knot second derivatives (moments) of the not-a-knot cubic spline. -/
def momentsOf (xs ys : List ℚ) : List ℚ := gaussSolve (notAKnotSystem xs ys)

/-- Per-interval data of the spline: for each interval `[x i, x (i+1)]`,
the left knot and the coefficients `(a, b, c, d)` of the cubic
`a + b t + c t^2 + d t^3` in `t = x - x i`, derived from the moments by
the standard formulas. -/
def piecesOf (xs ys : List ℚ) : List (ℚ × ℚ × ℚ × ℚ × ℚ) :=
  let n := xs.length - 1
  let M := fun i => (momentsOf xs ys).getD i 0
  let h := fun i => (hsOf xs).getD i 0
  let x := fun i => xs.getD i 0
  let y := fun i => ys.getD i 0
  (List.range n).map fun i =>
    (x i, y i,
     qsub (qdiv (qsub (y (i + 1)) (y i)) (h i))
          (qdiv (qmul (h i) (qadd (qmul 2 (M i)) (M (i + 1)))) 6),
     qdiv (M i) 2,
     qdiv (qsub (M (i + 1)) (M i)) (qmul 6 (h i)))

/-- Evaluate one cubic piece at a rational `x`. -/
def qevalCubic (p : ℚ × ℚ × ℚ × ℚ × ℚ) (x : ℚ) : ℚ :=
  qadd p.2.1 (qmul (qsub x p.1)
    (qadd p.2.2.1 (qmul (qsub x p.1)
      (qadd p.2.2.2.1 (qmul (qsub x p.1) p.2.2.2.2)))))

/-- Evaluate the piecewise cubic at a rational `x`: use piece `i` while
`x < x (i+1)`, and the last piece otherwise (the interval-selection rule
of the compiled piecewise polynomial). -/
def qevalPieces (x : ℚ) : List (ℚ × ℚ × ℚ × ℚ × ℚ) → ℚ
  | [] => 0
  | [p] => qevalCubic p x
  | p :: q :: rest => if x < q.1 then qevalCubic p x else qevalPieces x (q :: rest)

/-- The pieces of the active force-length curve. -/
def activePieces : List (ℚ × ℚ × ℚ × ℚ × ℚ) := piecesOf activeX activeY

/-- The pieces of the passive force-length curve. -/
def passivePieces : List (ℚ × ℚ × ℚ × ℚ × ℚ) := piecesOf passiveX passiveY

/-- The active force-length curve of `get_active_force_length_function`,
exact rational evaluation. -/
def activeCurveQ (q : ℚ) : ℚ := qevalPieces q activePieces

/-- The passive force-length curve of `get_passive_force_length_function`,
exact rational evaluation. -/
def passiveCurveQ (q : ℚ) : ℚ := qevalPieces q passivePieces

/-- First derivative of a cubic piece at a rational `x`. -/
def qderivCubic (p : ℚ × ℚ × ℚ × ℚ × ℚ) (x : ℚ) : ℚ :=
  qadd p.2.2.1 (qmul (qsub x p.1)
    (qadd (qmul 2 p.2.2.2.1) (qmul (qmul 3 (qsub x p.1)) p.2.2.2.2)))

/-- Second derivative of a cubic piece at a rational `x`. -/
def qderiv2Cubic (p : ℚ × ℚ × ℚ × ℚ × ℚ) (x : ℚ) : ℚ :=
  qadd (qmul 2 p.2.2.2.1) (qmul (qmul 6 (qsub x p.1)) p.2.2.2.2)

/-- Two consecutive pieces agree in value, first and second derivative at
the knot where they meet (C² smoothness at that knot). -/
def smoothPair (p q : ℚ × ℚ × ℚ × ℚ × ℚ) : Prop :=
  qevalCubic p q.1 = qevalCubic q q.1 ∧
  qderivCubic p q.1 = qderivCubic q q.1 ∧
  qderiv2Cubic p q.1 = qderiv2Cubic q q.1

instance smoothPairDec : DecidableRel smoothPair := fun p q =>
  inferInstanceAs (Decidable (qevalCubic p q.1 = qevalCubic q q.1 ∧
    qderivCubic p q.1 = qderivCubic q q.1 ∧ qderiv2Cubic p q.1 = qderiv2Cubic q q.1))

/-- Every pair of consecutive pieces in the list meets smoothly. -/
def smoothChain : List (ℚ × ℚ × ℚ × ℚ × ℚ) → Prop
  | p :: q :: rest => smoothPair p q ∧ smoothChain (q :: rest)
  | _ => True

instance smoothChainDec : (l : List (ℚ × ℚ × ℚ × ℚ × ℚ)) → Decidable (smoothChain l)
  | [] => .isTrue trivial
  | [_] => .isTrue trivial
  | p :: q :: rest =>
    have : Decidable (smoothChain (q :: rest)) := smoothChainDec (q :: rest)
    inferInstanceAs (Decidable (smoothPair p q ∧ smoothChain (q :: rest)))

/-- Evaluate one cubic piece at a real `x` (the idealization of the
floating-point evaluation). -/
noncomputable def revalCubic (p : ℚ × ℚ × ℚ × ℚ × ℚ) (x : ℝ) : ℝ :=
  (p.2.1 : ℝ) + (x - (p.1 : ℝ)) * ((p.2.2.1 : ℝ) +
    (x - (p.1 : ℝ)) * ((p.2.2.2.1 : ℝ) + (x - (p.1 : ℝ)) * (p.2.2.2.2 : ℝ)))

/-- Evaluate the piecewise cubic at a real `x`. -/
noncomputable def revalPieces (x : ℝ) : List (ℚ × ℚ × ℚ × ℚ × ℚ) → ℝ
  | [] => 0
  | [p] => revalCubic p x
  | p :: q :: rest => if x < ((q.1 : ℚ) : ℝ) then revalCubic p x else revalPieces x (q :: rest)

/-- `scipy.interpolate.interp1d(x, y, kind='cubic')` as used by the model:
the not-a-knot cubic spline through the table, evaluated at a real point;
evaluation outside `[x.min(), x.max()]` raises (`bounds_error` is true by
default), modelled as `none`. -/
noncomputable def interp1d (xs ys : List ℚ) (x : ℝ) : Option ℝ :=
  if x < ((xs.headI : ℚ) : ℝ) ∨ ((xs.getLastD 0 : ℚ) : ℝ) < x then none
  else some (revalPieces x (piecesOf xs ys))

/-- The five parameters of `Hill_type_muscle.__init__`, with the source's
default values. -/
structure Hill_type_muscle where
  F_0 : ℝ := 3549
  l_0 : ℝ := 0.05
  l_t : ℝ := 0.25
  phi_0 : ℝ := 0.2
  A : ℝ := -0.1

/-- The muscle built with all default parameters, as in the driver
(`Hill_Muscle = H_muscle.Hill_type_muscle()`). -/
def defaultMuscle : Hill_type_muscle := {}

namespace Hill_type_muscle

/-- `cal_muscle_activation`: `a = (np.exp(self.A*u) - 1)/(np.exp(self.A) - 1)`. -/
noncomputable def cal_muscle_activation (m : Hill_type_muscle) (u : ℝ) : ℝ :=
  (Real.exp (m.A * u) - 1) / (Real.exp m.A - 1)

/-- `cal_muscle_fiber_length`:
`l_m = np.sqrt((self.l_0*np.sin(self.phi_0))**2 + (l_mt - self.l_t)**2)`. -/
noncomputable def cal_muscle_fiber_length (m : Hill_type_muscle) (l_mt : ℝ) : ℝ :=
  Real.sqrt ((m.l_0 * Real.sin m.phi_0) ^ 2 + (l_mt - m.l_t) ^ 2)

/-- `cal_normalized_muscle_fiber_length`: `l_hat = l_m/self.l_0`. -/
noncomputable def cal_normalized_muscle_fiber_length (m : Hill_type_muscle) (l_mt : ℝ) : ℝ :=
  m.cal_muscle_fiber_length l_mt / m.l_0

/-- `get_active_force_length_function`: the cubic interpolant of the
active table (the method reads no instance state). -/
noncomputable def get_active_force_length_function : ℝ → Option ℝ :=
  interp1d activeX activeY

/-- `get_passive_force_length_function`: the cubic interpolant of the
passive table. -/
noncomputable def get_passive_force_length_function : ℝ → Option ℝ :=
  interp1d passiveX passiveY

/-- `get_active_force_length_value`: `f_am = f_a(l_hat)`. -/
noncomputable def get_active_force_length_value (m : Hill_type_muscle) (l_mt : ℝ) :
    Option ℝ :=
  get_active_force_length_function (m.cal_normalized_muscle_fiber_length l_mt)

/-- `get_passive_force_length_value`: `f_pm = f_p(l_hat)`. -/
noncomputable def get_passive_force_length_value (m : Hill_type_muscle) (l_mt : ℝ) :
    Option ℝ :=
  get_passive_force_length_function (m.cal_normalized_muscle_fiber_length l_mt)

/-- `cal_active_muscle_force`: `F_A = f_am*self.F_0*a` with
`a = self.cal_muscle_activation(u)`. -/
noncomputable def cal_active_muscle_force (m : Hill_type_muscle) (l_mt u : ℝ) :
    Option ℝ :=
  (m.get_active_force_length_value l_mt).map fun f_am =>
    f_am * m.F_0 * m.cal_muscle_activation u

/-- `cal_passive_muscle_force`: `F_P = f_pm*self.F_0`. -/
noncomputable def cal_passive_muscle_force (m : Hill_type_muscle) (l_mt : ℝ) :
    Option ℝ :=
  (m.get_passive_force_length_value l_mt).map fun f_pm => f_pm * m.F_0

/-- `cal_muscle_fiber_force`: `a = self.cal_muscle_activation(u)`;
`F_A = self.cal_active_muscle_force(l_mt, a)` (note: the activation value
`a` is passed where an excitation is expected);
`F_P = self.cal_passive_muscle_force(l_mt)`; `F = F_A + F_P`. -/
noncomputable def cal_muscle_fiber_force (m : Hill_type_muscle) (l_mt u : ℝ) :
    Option ℝ :=
  (m.cal_active_muscle_force l_mt (m.cal_muscle_activation u)).bind fun F_A =>
    (m.cal_passive_muscle_force l_mt).map fun F_P => F_A + F_P

end Hill_type_muscle

/-- A small valid parameter set used to instantiate general theorems on
concrete inputs: `F_0 = 1`, `l_0 = 1`, `l_t = 0`, `phi_0 = 0`, `A = -1`.
With a zero pennation angle the normalized fiber length of `l_mt ≥ 0` is
`l_mt` itself, which lets curve lookups be evaluated exactly. -/
def mW : Hill_type_muscle := ⟨1, 1, 0, 0, -1⟩

/-- The interpolant takes value `f x = y` for every aligned pair of the two
lists. -/
def interpAll (f : ℚ → ℚ) : List ℚ → List ℚ → Prop
  | x :: xs, y :: ys => f x = y ∧ interpAll f xs ys
  | _, _ => True

instance interpAllDec (f : ℚ → ℚ) :
    (xs : List ℚ) → (ys : List ℚ) → Decidable (interpAll f xs ys)
  | [], _ => .isTrue trivial
  | _ :: _, [] => .isTrue trivial
  | x :: xs, y :: ys =>
    have : Decidable (interpAll f xs ys) := interpAllDec f xs ys
    inferInstanceAs (Decidable (f x = y ∧ interpAll f xs ys))

/-- The function takes the constant value `c` at every point of the list. -/
def evalsTo (f : ℚ → ℚ) (c : ℚ) : List ℚ → Prop
  | [] => True
  | x :: xs => f x = c ∧ evalsTo f c xs

instance evalsToDec (f : ℚ → ℚ) (c : ℚ) : (xs : List ℚ) → Decidable (evalsTo f c xs)
  | [] => .isTrue trivial
  | x :: xs =>
    have : Decidable (evalsTo f c xs) := evalsToDec f c xs
    inferInstanceAs (Decidable (f x = c ∧ evalsTo f c xs))

open Hill_type_muscle

theorem den_cast_ne (a : ℚ) : (a.den : ℚ) ≠ 0 :=
  Nat.cast_ne_zero.mpr a.den_nz

theorem num_eq_mul_den (a : ℚ) : (a.num : ℚ) = a * a.den := by
  have h := Rat.num_div_den a
  rw [div_eq_iff (den_cast_ne a)] at h
  exact h

theorem qadd_eq (a b : ℚ) : qadd a b = a + b := by
  rw [qadd, Rat.mkRat_eq_div]
  push_cast
  rw [div_eq_iff (by positivity)]
  rw [num_eq_mul_den a, num_eq_mul_den b]
  ring

theorem qsub_eq (a b : ℚ) : qsub a b = a - b := by
  rw [qsub, Rat.mkRat_eq_div]
  push_cast
  rw [div_eq_iff (by positivity)]
  rw [num_eq_mul_den a, num_eq_mul_den b]
  ring

theorem qmul_eq (a b : ℚ) : qmul a b = a * b := by
  rw [qmul, Rat.mkRat_eq_div]
  push_cast
  rw [div_eq_iff (by positivity)]
  rw [num_eq_mul_den a, num_eq_mul_den b]
  ring

theorem qdiv_eq (a b : ℚ) : qdiv a b = a / b := by
  rcases lt_trichotomy b.num 0 with hb | hb | hb
  · have hbq : b ≠ 0 := Rat.num_ne_zero.mp hb.ne
    have hbn : (b.num : ℚ) ≠ 0 := by exact_mod_cast hb.ne
    have hD : ((a.den : ℚ) * -(b.num : ℚ)) ≠ 0 :=
      mul_ne_zero (den_cast_ne a) (neg_ne_zero.mpr hbn)
    rw [qdiv, if_neg (not_le.mpr hb), Rat.mkRat_eq_div]
    have hden : ((a.den * b.num.natAbs : ℕ) : ℚ) = (a.den : ℚ) * -(b.num : ℚ) := by
      push_cast [Int.cast_natAbs]
      rw [abs_of_neg (show (b.num : ℚ) < 0 by exact_mod_cast hb)]
    rw [hden, div_eq_div_iff hD hbq]
    push_cast
    rw [num_eq_mul_den a, num_eq_mul_den b]
    ring
  · have hb0 : b = 0 := by
      rwa [Rat.num_eq_zero] at hb
    subst hb0
    rw [qdiv]
    norm_num
  · have hbq : b ≠ 0 := Rat.num_ne_zero.mp hb.ne.symm
    have hbn : (b.num : ℚ) ≠ 0 := by exact_mod_cast hb.ne.symm
    have hD : ((a.den : ℚ) * (b.num : ℚ)) ≠ 0 := mul_ne_zero (den_cast_ne a) hbn
    rw [qdiv, if_pos hb.le, Rat.mkRat_eq_div]
    have hden : ((a.den * b.num.natAbs : ℕ) : ℚ) = (a.den : ℚ) * (b.num : ℚ) := by
      push_cast [Int.cast_natAbs]
      rw [abs_of_pos (show (0:ℚ) < b.num by exact_mod_cast hb)]
    rw [hden, div_eq_div_iff hD hbq]
    push_cast
    rw [num_eq_mul_den a, num_eq_mul_den b]
    ring

theorem qneg_eq (a : ℚ) : qneg a = -a := by
  rw [qneg, Rat.mkRat_eq_div]
  push_cast
  rw [div_eq_iff (den_cast_ne a), num_eq_mul_den a]
  ring

theorem activeX_eq_decimals :
    activeX = [-5, 0, 0.401, 0.402, 0.4035, 0.52725, 0.62875, 0.71875, 0.86125,
               1.045, 1.2175, 1.43875, 1.61875, 1.62, 1.621, 2.2, 5] := by
  norm_num [activeX, Rat.mkRat_eq_div]

theorem activeY_eq_decimals :
    activeY = [0, 0, 0, 0, 0, 0.226667, 0.636667, 0.856667, 0.95, 0.993333,
               0.77, 0.246667, 0, 0, 0, 0, 0] := by
  norm_num [activeY, Rat.mkRat_eq_div]

theorem passiveX_eq_decimals :
    passiveX = [-5, 0.998, 0.999, 1, 1.1, 1.2, 1.3, 1.4, 1.5, 1.6, 1.601,
                1.602, 5] := by
  norm_num [passiveX, Rat.mkRat_eq_div]

theorem passiveY_eq_decimals :
    passiveY = [0, 0, 0, 0, 0.035, 0.12, 0.26, 0.55, 1.17, 2, 2, 2, 2] := by
  norm_num [passiveY, Rat.mkRat_eq_div]

/-- Certification: the computed active pieces are C² across every interior
knot, so together with the interpolation theorem and the not-a-knot
conditions they form exactly the C² not-a-knot cubic spline of the active
table (that interpolant is unique). -/
theorem active_smooth : smoothChain activePieces := by decide

/-- Certification: the computed passive pieces are C² across every
interior knot. -/
theorem passive_smooth : smoothChain passivePieces := by decide

/-- Certification: not-a-knot conditions for the active curve — the first
two pieces share their cubic coefficient, as do the last two (with the C²
conditions this makes them the same cubic). -/
theorem active_notaknot :
    (activePieces.getD 0 (0, 0, 0, 0, 0)).2.2.2.2 =
      (activePieces.getD 1 (0, 0, 0, 0, 0)).2.2.2.2 ∧
    (activePieces.getD 14 (0, 0, 0, 0, 0)).2.2.2.2 =
      (activePieces.getD 15 (0, 0, 0, 0, 0)).2.2.2.2 := by decide

/-- Certification: not-a-knot conditions for the passive curve. -/
theorem passive_notaknot :
    (passivePieces.getD 0 (0, 0, 0, 0, 0)).2.2.2.2 =
      (passivePieces.getD 1 (0, 0, 0, 0, 0)).2.2.2.2 ∧
    (passivePieces.getD 10 (0, 0, 0, 0, 0)).2.2.2.2 =
      (passivePieces.getD 11 (0, 0, 0, 0, 0)).2.2.2.2 := by decide

theorem revalCubic_cast (p : ℚ × ℚ × ℚ × ℚ × ℚ) (q : ℚ) :
    revalCubic p (q : ℝ) = ((qevalCubic p q : ℚ) : ℝ) := by
  simp only [qevalCubic, qadd_eq, qmul_eq, qsub_eq, revalCubic]
  push_cast
  ring

/-- Real evaluation at a rational point agrees with the exact rational
evaluation. -/
theorem revalPieces_cast (q : ℚ) :
    ∀ ps : List (ℚ × ℚ × ℚ × ℚ × ℚ), revalPieces (q : ℝ) ps = ((qevalPieces q ps : ℚ) : ℝ)
  | [] => by simp [revalPieces, qevalPieces]
  | [p] => by simp [revalPieces, qevalPieces, revalCubic_cast]
  | p :: p' :: rest => by
    simp only [revalPieces, qevalPieces]
    by_cases h : q < p'.1
    · rw [if_pos h, if_pos (show (q : ℝ) < ((p'.1 : ℚ) : ℝ) by exact_mod_cast h),
        revalCubic_cast]
    · rw [if_neg h, if_neg (show ¬ (q : ℝ) < ((p'.1 : ℚ) : ℝ) by exact_mod_cast h),
        revalPieces_cast q (p' :: rest)]

theorem interp1d_in_domain (xs ys : List ℚ) (x : ℝ)
    (h1 : ((xs.headI : ℚ) : ℝ) ≤ x) (h2 : x ≤ ((xs.getLastD 0 : ℚ) : ℝ)) :
    interp1d xs ys x = some (revalPieces x (piecesOf xs ys)) := by
  rw [interp1d, if_neg]
  push_neg
  exact ⟨h1, h2⟩

theorem interp1d_out_domain (xs ys : List ℚ) (x : ℝ)
    (h : x < ((xs.headI : ℚ) : ℝ) ∨ ((xs.getLastD 0 : ℚ) : ℝ) < x) :
    interp1d xs ys x = none :=
  if_pos h

theorem activeX_headI_cast : ((activeX.headI : ℚ) : ℝ) = -5 := by
  rw [show activeX.headI = ((-5 : ℤ) : ℚ) by decide]
  push_cast
  norm_num

theorem activeX_getLast_cast : ((activeX.getLastD 0 : ℚ) : ℝ) = 5 := by
  rw [show activeX.getLastD 0 = ((5 : ℤ) : ℚ) by decide]
  push_cast
  norm_num

theorem passiveX_headI_cast : ((passiveX.headI : ℚ) : ℝ) = -5 := by
  rw [show passiveX.headI = ((-5 : ℤ) : ℚ) by decide]
  push_cast
  norm_num

theorem passiveX_getLast_cast : ((passiveX.getLastD 0 : ℚ) : ℝ) = 5 := by
  rw [show passiveX.getLastD 0 = ((5 : ℤ) : ℚ) by decide]
  push_cast
  norm_num

theorem activation_zero (m : Hill_type_muscle) : m.cal_muscle_activation 0 = 0 := by
  rw [cal_muscle_activation, mul_zero, Real.exp_zero, sub_self, zero_div]

theorem activation_one (m : Hill_type_muscle) (hA : m.A ≠ 0) :
    m.cal_muscle_activation 1 = 1 := by
  rw [cal_muscle_activation, mul_one]
  exact div_self (sub_ne_zero.mpr fun h =>
    hA (Real.exp_injective (h.trans Real.exp_zero.symm)))

theorem exp_denom_neg {A : ℝ} (hA : A < 0) : Real.exp A - 1 < 0 := by
  have h := Real.exp_lt_exp.mpr hA
  rw [Real.exp_zero] at h
  exact sub_neg.mpr h

theorem activation_le (m : Hill_type_muscle) (hA : m.A < 0) {u₁ u₂ : ℝ} (h : u₁ ≤ u₂) :
    m.cal_muscle_activation u₁ ≤ m.cal_muscle_activation u₂ := by
  have hnum : Real.exp (m.A * u₂) - 1 ≤ Real.exp (m.A * u₁) - 1 :=
    sub_le_sub_right (Real.exp_le_exp.mpr (mul_le_mul_of_nonpos_left h hA.le)) 1
  have hinv : (Real.exp m.A - 1)⁻¹ < 0 := inv_lt_zero.mpr (exp_denom_neg hA)
  rw [cal_muscle_activation, cal_muscle_activation, div_eq_mul_inv, div_eq_mul_inv]
  exact mul_le_mul_of_nonpos_right hnum hinv.le

theorem activation_lt (m : Hill_type_muscle) (hA : m.A < 0) {u₁ u₂ : ℝ} (h : u₁ < u₂) :
    m.cal_muscle_activation u₁ < m.cal_muscle_activation u₂ := by
  have hnum : Real.exp (m.A * u₂) - 1 < Real.exp (m.A * u₁) - 1 :=
    sub_lt_sub_right (Real.exp_lt_exp.mpr (mul_lt_mul_of_neg_left h hA)) 1
  have hinv : (Real.exp m.A - 1)⁻¹ < 0 := inv_lt_zero.mpr (exp_denom_neg hA)
  rw [cal_muscle_activation, cal_muscle_activation, div_eq_mul_inv, div_eq_mul_inv]
  exact mul_lt_mul_of_neg_right hnum hinv

/-- With `mW`'s geometry (`l_0 = 1`, `l_t = 0`, `phi_0 = 0`), the
normalized fiber length of a nonnegative `l_mt` is `l_mt` itself. -/
theorem mW_lhat (x : ℝ) (hx : 0 ≤ x) : mW.cal_normalized_muscle_fiber_length x = x := by
  show Real.sqrt ((1 * Real.sin 0) ^ 2 + (x - 0) ^ 2) / 1 = x
  rw [Real.sin_zero, mul_zero, sub_zero, div_one, show ((0:ℝ) ^ 2) = 0 by norm_num,
    zero_add, Real.sqrt_sq hx]

theorem mW_active_value (q : ℚ) (hq0 : 0 ≤ q) (hq5 : q ≤ 5) :
    mW.get_active_force_length_value ((q : ℚ) : ℝ) =
      some (((activeCurveQ q : ℚ) : ℝ)) := by
  rw [get_active_force_length_value, mW_lhat _ (by exact_mod_cast hq0),
    get_active_force_length_function,
    interp1d_in_domain _ _ _ (by rw [activeX_headI_cast]; exact_mod_cast le_trans (by norm_num) hq0)
      (by rw [activeX_getLast_cast]; exact_mod_cast hq5),
    revalPieces_cast]
  rfl

theorem mW_passive_value (q : ℚ) (hq0 : 0 ≤ q) (hq5 : q ≤ 5) :
    mW.get_passive_force_length_value ((q : ℚ) : ℝ) =
      some (((passiveCurveQ q : ℚ) : ℝ)) := by
  rw [get_passive_force_length_value, mW_lhat _ (by exact_mod_cast hq0),
    get_passive_force_length_function,
    interp1d_in_domain _ _ _ (by rw [passiveX_headI_cast]; exact_mod_cast le_trans (by norm_num) hq0)
      (by rw [passiveX_getLast_cast]; exact_mod_cast hq5),
    revalPieces_cast]
  rfl

/-- C1: for every muscle, every `l_mt` whose normalized fiber length is in
the curve domain (both lookups succeed) and every real `u` (with `A ≠ 0`),
`cal_muscle_fiber_force` returns
`activeForceLengthValue(l_mt) * F_0 * activation(activation(u)) +
passiveForceLengthValue(l_mt) * F_0`: the already-computed activation `a`
is passed into `cal_active_muscle_force`, which applies the activation
nonlinearity to it a second time. -/
theorem C1_double_activation (m : Hill_type_muscle) (l_mt u f_am f_pm : ℝ)
    (hA : m.A ≠ 0)
    (ha : m.get_active_force_length_value l_mt = some f_am)
    (hp : m.get_passive_force_length_value l_mt = some f_pm) :
    m.cal_muscle_fiber_force l_mt u =
      some (f_am * m.F_0 * m.cal_muscle_activation (m.cal_muscle_activation u) +
            f_pm * m.F_0) := by
  rw [cal_muscle_fiber_force, cal_active_muscle_force, cal_passive_muscle_force, ha, hp]
  rfl

theorem C1_witness : mW.cal_muscle_fiber_force ((1 : ℚ) : ℝ) 0 =
    some (((activeCurveQ 1 : ℚ) : ℝ) * mW.F_0 *
            mW.cal_muscle_activation (mW.cal_muscle_activation 0) +
          ((passiveCurveQ 1 : ℚ) : ℝ) * mW.F_0) :=
  C1_double_activation mW ((1 : ℚ) : ℝ) 0 _ _
    (show (-1 : ℝ) ≠ 0 by norm_num)
    (mW_active_value 1 (by norm_num) (by norm_num))
    (mW_passive_value 1 (by norm_num) (by norm_num))

/-- C2: for every muscle and every real excitation `u`,
`cal_muscle_activation u` is `(exp(A·u) − 1) / (exp(A) − 1)`, and the
denominator of that formula vanishes exactly when the shape factor `A` is
zero (the division-by-zero configuration the spec calls out; the reference
does not guard it). -/
theorem C2_activation_formula (m : Hill_type_muscle) (u : ℝ) :
    m.cal_muscle_activation u = (Real.exp (m.A * u) - 1) / (Real.exp m.A - 1) ∧
    (Real.exp m.A - 1 = 0 ↔ m.A = 0) := by
  refine ⟨rfl, ?_, ?_⟩ <;> intro h
  · exact Real.exp_injective ((sub_eq_zero.mp h).trans Real.exp_zero.symm)
  · rw [h, Real.exp_zero, sub_self]

/-- C3: for every muscle with `A ≠ 0`, `activation 0 = 0` and
`activation 1 = 1`; and when `A < 0` the activation is monotonically
non-decreasing in the excitation. -/
theorem C3_activation_props (m : Hill_type_muscle) (hA : m.A ≠ 0) :
    m.cal_muscle_activation 0 = 0 ∧ m.cal_muscle_activation 1 = 1 ∧
    (m.A < 0 → ∀ u₁ u₂ : ℝ, u₁ ≤ u₂ →
      m.cal_muscle_activation u₁ ≤ m.cal_muscle_activation u₂) :=
  ⟨activation_zero m, activation_one m hA,
   fun hneg _ _ h => activation_le m hneg h⟩

theorem C3_witness :
    mW.cal_muscle_activation 0 = 0 ∧ mW.cal_muscle_activation 1 = 1 ∧
    mW.cal_muscle_activation (1 / 2) ≤ mW.cal_muscle_activation 1 := by
  have h := C3_activation_props mW (show (-1 : ℝ) ≠ 0 by norm_num)
  exact ⟨h.1, h.2.1, h.2.2 (show (-1 : ℝ) < 0 by norm_num) (1 / 2) 1 (by norm_num)⟩

/-- C4: for every muscle with a geometrically valid pennation term
(`0 ≤ l_0 · sin(phi_0)`, true of the defaults) and every real `l_mt`, the
fiber length is `sqrt((l_0·sin(phi_0))² + (l_mt − l_t)²)`, it is
nonnegative, and at `l_mt = l_t` it equals `l_0 · sin(phi_0)`, its
minimum. -/
theorem C4_fiber_length (m : Hill_type_muscle) (l_mt : ℝ)
    (h0 : 0 ≤ m.l_0 * Real.sin m.phi_0) :
    m.cal_muscle_fiber_length l_mt =
      Real.sqrt ((m.l_0 * Real.sin m.phi_0) ^ 2 + (l_mt - m.l_t) ^ 2) ∧
    0 ≤ m.cal_muscle_fiber_length l_mt ∧
    m.cal_muscle_fiber_length m.l_t = m.l_0 * Real.sin m.phi_0 ∧
    m.cal_muscle_fiber_length m.l_t ≤ m.cal_muscle_fiber_length l_mt := by
  refine ⟨rfl, Real.sqrt_nonneg _, ?_, ?_⟩
  · rw [cal_muscle_fiber_length, sub_self, show ((0:ℝ) ^ 2) = 0 by norm_num,
      add_zero, Real.sqrt_sq h0]
  · rw [cal_muscle_fiber_length, cal_muscle_fiber_length]
    apply Real.sqrt_le_sqrt
    nlinarith [sq_nonneg (l_mt - m.l_t)]

theorem C4_witness :
    defaultMuscle.cal_muscle_fiber_length 0.3 =
      Real.sqrt ((defaultMuscle.l_0 * Real.sin defaultMuscle.phi_0) ^ 2 +
        ((0.3 : ℝ) - defaultMuscle.l_t) ^ 2) ∧
    0 ≤ defaultMuscle.cal_muscle_fiber_length 0.3 ∧
    defaultMuscle.cal_muscle_fiber_length defaultMuscle.l_t =
      defaultMuscle.l_0 * Real.sin defaultMuscle.phi_0 ∧
    defaultMuscle.cal_muscle_fiber_length defaultMuscle.l_t ≤
      defaultMuscle.cal_muscle_fiber_length 0.3 :=
  C4_fiber_length defaultMuscle 0.3 (by
    have hs : 0 ≤ Real.sin 0.2 :=
      Real.sin_nonneg_of_nonneg_of_le_pi (by norm_num)
        (le_trans (by norm_num) Real.pi_gt_three.le)
    show 0 ≤ (0.05 : ℝ) * Real.sin 0.2
    exact mul_nonneg (by norm_num) hs)

/-- C5: for every muscle with `A ≠ 0`, every in-domain `l_mt` and every
real `u`, `cal_active_muscle_force` returns
`activeForceLengthValue(l_mt) * F_0 * activation(u)`; in particular at
`u = 0` it returns zero force. -/
theorem C5_active_force (m : Hill_type_muscle) (l_mt u f_am : ℝ) (hA : m.A ≠ 0)
    (ha : m.get_active_force_length_value l_mt = some f_am) :
    m.cal_active_muscle_force l_mt u =
      some (f_am * m.F_0 * m.cal_muscle_activation u) ∧
    m.cal_active_muscle_force l_mt 0 = some 0 := by
  constructor
  · rw [cal_active_muscle_force, ha]
    rfl
  · rw [cal_active_muscle_force, ha]
    simp [activation_zero]

theorem C5_witness :
    mW.cal_active_muscle_force ((1 : ℚ) : ℝ) (1 / 2) =
      some (((activeCurveQ 1 : ℚ) : ℝ) * mW.F_0 * mW.cal_muscle_activation (1 / 2)) ∧
    mW.cal_active_muscle_force ((1 : ℚ) : ℝ) 0 = some 0 :=
  C5_active_force mW ((1 : ℚ) : ℝ) (1 / 2) _
    (show (-1 : ℝ) ≠ 0 by norm_num)
    (mW_active_value 1 (by norm_num) (by norm_num))

/-- C6: for every muscle and every in-domain `l_mt`,
`cal_passive_muscle_force` returns exactly
`passiveForceLengthValue(l_mt) * F_0`. -/
theorem C6_passive_scaling (m : Hill_type_muscle) (l_mt f_pm : ℝ)
    (hp : m.get_passive_force_length_value l_mt = some f_pm) :
    m.cal_passive_muscle_force l_mt = some (f_pm * m.F_0) := by
  rw [cal_passive_muscle_force, hp]
  rfl

theorem C6_witness :
    mW.cal_passive_muscle_force ((1 : ℚ) : ℝ) =
      some (((passiveCurveQ 1 : ℚ) : ℝ) * mW.F_0) :=
  C6_passive_scaling mW ((1 : ℚ) : ℝ) _
    (mW_passive_value 1 (by norm_num) (by norm_num))

/-- C7: the cubic interpolant of each force-length curve passes through
every tabulated breakpoint exactly; in particular the active curve at
normalized length `1.045` is exactly `0.993333`. -/
theorem C7_interpolates :
    interpAll activeCurveQ activeX activeY ∧
    interpAll passiveCurveQ passiveX passiveY ∧
    activeCurveQ 1.045 = 0.993333 := by
  refine ⟨by decide, by decide, ?_⟩
  rw [show (1.045 : ℚ) = mkRat 1045 1000 by rw [Rat.mkRat_eq_div]; norm_num,
    show (0.993333 : ℚ) = mkRat 993333 1000000 by rw [Rat.mkRat_eq_div]; norm_num]
  decide

/-- C8 counterexample: the reconstructed curves are not flat on the claimed
plateaus — at normalized length `0.2 ∈ [-5, 0.4035]` the active curve is
nonzero, and at `2 ∈ [1.6, 5]` the passive curve differs from `2`. -/
theorem C8_plateaus_cex :
    ((-5 : ℚ) ≤ mkRat 1 5 ∧ mkRat 1 5 ≤ mkRat 4035 10000 ∧
      activeCurveQ (mkRat 1 5) ≠ 0) ∧
    (mkRat 16 10 ≤ mkRat 2 1 ∧ mkRat 2 1 ≤ 5 ∧
      passiveCurveQ (mkRat 2 1) ≠ 2) := by decide

/-- C8 amended: the curves take the claimed plateau values exactly at each
tabulated breakpoint of those regions (active is `0` at every breakpoint
`≤ 0.4035` and `≥ 1.61875`; passive is `0` at every breakpoint `≤ 1` and
`2` at every breakpoint `≥ 1.6`); between breakpoints the cubic
interpolant deviates slightly from the plateau value. -/
theorem C8_plateaus_amended :
    evalsTo activeCurveQ 0
      [mkRat (-5) 1, 0, mkRat 401 1000, mkRat 402 1000, mkRat 4035 10000,
       mkRat 161875 100000, mkRat 162 100, mkRat 1621 1000, mkRat 22 10, 5] ∧
    evalsTo passiveCurveQ 0 [mkRat (-5) 1, mkRat 998 1000, mkRat 999 1000, 1] ∧
    evalsTo passiveCurveQ 2 [mkRat 16 10, mkRat 1601 1000, mkRat 1602 1000, 5] := by
  refine ⟨by decide, by decide, by decide⟩

/-- C9: whenever the normalized fiber length falls outside the tabulated
range `[-5, 5]`, both curve lookups fail (the underlying `interp1d` raises
its out-of-bounds error, modelled as `none`). -/
theorem C9_domain_error (m : Hill_type_muscle) (l_mt : ℝ)
    (h : m.cal_normalized_muscle_fiber_length l_mt < -5 ∨
         5 < m.cal_normalized_muscle_fiber_length l_mt) :
    m.get_active_force_length_value l_mt = none ∧
    m.get_passive_force_length_value l_mt = none := by
  constructor
  · rw [get_active_force_length_value, get_active_force_length_function]
    apply interp1d_out_domain
    rw [activeX_headI_cast, activeX_getLast_cast]
    exact h
  · rw [get_passive_force_length_value, get_passive_force_length_function]
    apply interp1d_out_domain
    rw [passiveX_headI_cast, passiveX_getLast_cast]
    exact h

theorem C9_witness :
    mW.get_active_force_length_value 6 = none ∧
    mW.get_passive_force_length_value 6 = none :=
  C9_domain_error mW 6 (Or.inr (by rw [mW_lhat 6 (by norm_num)]; norm_num))

/-- C10 counterexample: with the valid parameter set `mW` (`A = -1 < 0`,
`F_0 = 1 > 0`) and `l_mt = 2` in the curve domain, the active force
sequence along the non-decreasing excitations `1/2 ≤ 1` strictly
decreases, because the active force-length value at normalized length `2`
is negative (cubic undershoot on the zero plateau). -/
theorem C10_monotone_cex :
    mW.A < 0 ∧ 0 < mW.F_0 ∧ (1 : ℝ) / 2 ≤ 1 ∧
    mW.cal_active_muscle_force ((2 : ℚ) : ℝ) (1 / 2) =
      some (((activeCurveQ 2 : ℚ) : ℝ) * mW.F_0 * mW.cal_muscle_activation (1 / 2)) ∧
    mW.cal_active_muscle_force ((2 : ℚ) : ℝ) 1 =
      some (((activeCurveQ 2 : ℚ) : ℝ) * mW.F_0 * mW.cal_muscle_activation 1) ∧
    ((activeCurveQ 2 : ℚ) : ℝ) * mW.F_0 * mW.cal_muscle_activation 1 <
      ((activeCurveQ 2 : ℚ) : ℝ) * mW.F_0 * mW.cal_muscle_activation (1 / 2) := by
  have hA : mW.A < 0 := show (-1 : ℝ) < 0 by norm_num
  have ha := mW_active_value 2 (by norm_num) (by norm_num)
  have hcurve : activeCurveQ 2 < 0 := by
    rw [show (2 : ℚ) = mkRat 2 1 by decide]
    decide
  have hcR : ((activeCurveQ 2 : ℚ) : ℝ) * mW.F_0 < 0 := by
    have hlt : ((activeCurveQ 2 : ℚ) : ℝ) < 0 := by exact_mod_cast hcurve
    calc ((activeCurveQ 2 : ℚ) : ℝ) * mW.F_0
        = ((activeCurveQ 2 : ℚ) : ℝ) * 1 := rfl
      _ = ((activeCurveQ 2 : ℚ) : ℝ) := mul_one _
      _ < 0 := hlt
  have hact : mW.cal_muscle_activation (1 / 2) < mW.cal_muscle_activation 1 :=
    activation_lt mW hA (by norm_num)
  refine ⟨hA, show (0 : ℝ) < 1 by norm_num, by norm_num, ?_, ?_, ?_⟩
  · rw [cal_active_muscle_force, ha]
    rfl
  · rw [cal_active_muscle_force, ha]
    rfl
  · rw [mul_assoc, mul_assoc]
    rw [← mul_assoc, ← mul_assoc]
    exact mul_lt_mul_of_neg_left hact hcR

/-- C10 amended: at a fixed in-domain `l_mt`, the active force is
monotonically non-decreasing along non-decreasing excitations when
`A < 0`, provided additionally `0 ≤ F_0` and the active force-length
value at `l_mt` is nonnegative; the counterexample shows the extra
proviso is necessary because the cubic interpolant undershoots below
zero between breakpoints. -/
theorem C10_monotone_amended (m : Hill_type_muscle) (l_mt f_am u₁ u₂ : ℝ)
    (hA : m.A < 0) (hF : 0 ≤ m.F_0) (hf : 0 ≤ f_am)
    (ha : m.get_active_force_length_value l_mt = some f_am) (h : u₁ ≤ u₂) :
    m.cal_active_muscle_force l_mt u₁ =
      some (f_am * m.F_0 * m.cal_muscle_activation u₁) ∧
    f_am * m.F_0 * m.cal_muscle_activation u₁ ≤
      f_am * m.F_0 * m.cal_muscle_activation u₂ := by
  refine ⟨by rw [cal_active_muscle_force, ha]; rfl, ?_⟩
  exact mul_le_mul_of_nonneg_left (activation_le m hA h) (mul_nonneg hf hF)

theorem C10_amended_witness :
    mW.cal_active_muscle_force ((1 : ℚ) : ℝ) 0 =
      some (((activeCurveQ 1 : ℚ) : ℝ) * mW.F_0 * mW.cal_muscle_activation 0) ∧
    ((activeCurveQ 1 : ℚ) : ℝ) * mW.F_0 * mW.cal_muscle_activation 0 ≤
      ((activeCurveQ 1 : ℚ) : ℝ) * mW.F_0 * mW.cal_muscle_activation 1 :=
  C10_monotone_amended mW ((1 : ℚ) : ℝ) _ 0 1
    (show (-1 : ℝ) < 0 by norm_num)
    (show (0 : ℝ) ≤ 1 by norm_num)
    (by
      have h : 0 ≤ activeCurveQ 1 := by
        rw [show (1 : ℚ) = mkRat 1 1 by decide]
        decide
      exact_mod_cast h)
    (mW_active_value 1 (by norm_num) (by norm_num))
    (by norm_num)

end HillMuscle
